import Mathlib

/-!
Verification development for the JavaScript static taint & network-call
analyzer of the mcp-browser repository.

Three implementations of the analyzer exist in the repository and are
embedded separately:

* `TaintAnalyzer` — the Babel-based analyzer of `src/analyze-js.js`
  (class `TaintAnalyzer` plus the `main` aggregation loop);
* `Srv` — the Babel-based pipeline inside `src/index.ts`
  (`detectNetworkCalls`, `extractCallInfo`, `extractObjectExpression`,
  `extractTemplateLiteral`, `extractExpression`, `inferMethod`);
* `AcornAnalyzer` — the acorn-based analyzer of `src/unnamed/part_001`
  (class `AcornAnalyzer`).

The AST is embedded as a closed inductive covering exactly the syntactic
forms the analyzers consult.  Source locations and the textual context
windows derived from them are reporting metadata that no analyzed
behaviour depends on, so they are omitted from the embedding.  Parsing is
performed by external libraries (`@babel/parser`, `acorn`), so a source
file is modelled as a path together with its parse outcome.
-/

namespace MCP

/-- JavaScript `String.prototype.toUpperCase` restricted to the ASCII
range the analyzers feed it (method names and `$name` placeholders). -/
def jsToUpper (s : String) : String := ⟨s.data.map Char.toUpper⟩

/-- JavaScript `String.prototype.startsWith`. -/
def strStartsWith (s pre : String) : Bool := pre.data.isPrefixOf s.data

/-- JavaScript `String.prototype.includes`: `sub` occurs as a contiguous
substring of `s`. -/
def strIncludes (s sub : String) : Bool :=
  (List.range (s.length + 1)).any fun i => sub.data.isPrefixOf (s.data.drop i)

/-- An object-literal property as the analyzers see it: `some key` for an
`ObjectProperty` whose key is an identifier (the only shape the extractors
accept), `none` standing for any other property form (computed key, spread,
method), which every extractor skips. -/
abbrev PropKey := Option String

/-- The syntactic forms consulted by the analyzers.  `templateLit` carries
the raw quasi chunks and the interpolated expressions; `other` stands for
every expression kind none of the analyzers inspect. -/
inductive Expr where
  | strLit (value : String)
  | ident (name : String)
  | member (obj : Expr) (prop : String)
  | templateLit (quasis : List String) (exprs : List Expr)
  | objectLit (props : List (PropKey × Expr))
  | call (callee : Expr) (args : List Expr)
  | newE (callee : Expr) (args : List Expr)
  | binary (op : String) (left : Expr) (right : Expr)
  | assign (left : Expr) (right : Expr)
  | other

/-- A statement: an expression statement or a variable declaration with a
list of declarators `(name, init)`.  Only identifier-named declarators are
modelled; the source guards every declarator access with
`t.isIdentifier(node.id)`. -/
inductive Stmt where
  | exprStmt (e : Expr)
  | varDecl (decls : List (String × Option Expr))

abbrev Program := List Stmt

/-- `node.callee` as accessed by the detectors: present on call and
new-expressions. -/
def calleeOf : Expr → Option Expr
  | .call c _ => some c
  | .newE c _ => some c
  | _ => none

/-- `node.arguments` as accessed by the detectors. -/
def argsOf : Expr → List Expr
  | .call _ a => a
  | .newE _ a => a
  | _ => []

mutual

/-- Pre-order (enter-order) listing of the nodes of an expression, in the
order `@babel/traverse` visits them (node first, then children in visitor
key order). -/
def exprEvents : Expr → List Expr
  | .strLit v => [.strLit v]
  | .ident n => [.ident n]
  | .member o p => .member o p :: exprEvents o
  | .templateLit qs es => .templateLit qs es :: exprListEvents es
  | .objectLit ps => .objectLit ps :: propsEvents ps
  | .call c a => .call c a :: (exprEvents c ++ exprListEvents a)
  | .newE c a => .newE c a :: (exprEvents c ++ exprListEvents a)
  | .binary op l r => .binary op l r :: (exprEvents l ++ exprEvents r)
  | .assign l r => .assign l r :: (exprEvents l ++ exprEvents r)
  | .other => [.other]

def exprListEvents : List Expr → List Expr
  | [] => []
  | e :: es => exprEvents e ++ exprListEvents es

def propsEvents : List (PropKey × Expr) → List Expr
  | [] => []
  | (_, v) :: ps => exprEvents v ++ propsEvents ps

end

/-- A traversal event: an expression node, or entering a variable
declarator (the `VariableDeclarator` visitor fires on the declarator
itself before its initializer's subtree). -/
inductive Node where
  | expr (e : Expr)
  | decl (name : String) (init : Option Expr)

/-- Events of one statement in babel visit order. -/
def stmtEvents : Stmt → List Node
  | .exprStmt e => (exprEvents e).map .expr
  | .varDecl ds => ds.flatMap fun d =>
      .decl d.1 d.2 :: (match d.2 with
        | some e => (exprEvents e).map .expr
        | none => [])

/-- Events of a whole program. -/
def programEvents (p : Program) : List Node := p.flatMap stmtEvents

/-!
## `src/analyze-js.js` — class `TaintAnalyzer`

The instance-level mutable state of the class is `this.taintedVariables`
and `this.taintSources` (both JS `Set`s, modelled as insertion-ordered
duplicate-free lists) plus `this.astErrors`.  The instance arrays
`this.networkCalls`, `this.apiEndpoints` and `this.dangerousPatterns` are
initialized but never pushed to, so they are omitted.  `this.astErrors`
is threaded at the run level where it is used.  Per-file results live in
the `analysis` record created by `analyzeFile`.
-/

namespace TaintAnalyzer

open MCP

/-- JS `Set.prototype.add` on an insertion-ordered list. -/
def addUnique (l : List String) (s : String) : List String :=
  if s ∈ l then l else l ++ [s]

/-- `getMemberExpressionString`: dotted-path rendering of a member
expression; any other object shape yields `""`. -/
def getMemberExpressionString : Expr → String
  | .member (.ident n) p => n ++ "." ++ p
  | .member (.member o q) p => getMemberExpressionString (.member o q) ++ "." ++ p
  | _ => ""

/-- The hard-coded `taintSources` array of `detectTaintSources`
(reproduced verbatim, including the `"new URLSearchParams"` entry that can
never equal a member-expression string). -/
def taintSourcesCatalog : List String :=
  ["location.href", "location.search", "location.hash", "document.URL",
   "document.referrer", "window.name", "document.cookie",
   "localStorage.getItem", "sessionStorage.getItem", "URLSearchParams.get",
   "new URLSearchParams", "req.query", "req.params", "req.body",
   "req.headers"]

/-- A network-call record: `fetch` entries carry `url`/`isTainted`, axios
entries additionally the member-expression string as `method`,
`XMLHttpRequest` entries neither. -/
structure NetCall where
  ctype : String
  method : Option String := none
  url : Option String := none
  tainted : Option Bool := none
deriving DecidableEq, Repr

/-- An `apiEndpoints` entry (location/context metadata omitted). -/
structure Endpoint where
  method : String
  url : String
  riskLevel : String
deriving DecidableEq, Repr

/-- The per-file `analysis` record built by `analyzeFile`'s traversal. -/
structure Analysis where
  taintedVariables : List String := []
  networkCalls : List NetCall := []
  apiEndpoints : List Endpoint := []
  dangerousPatterns : List String := []
  taintSources : List String := []
deriving DecidableEq, Repr

/-- The instance-level taint state (`this.taintedVariables`,
`this.taintSources`). -/
structure TaintSt where
  taintedVariables : List String := []
  taintSources : List String := []
deriving DecidableEq, Repr

/-- The traversal context: instance state plus the per-file analysis. -/
structure Ctx where
  st : TaintSt := {}
  ana : Analysis := {}
deriving DecidableEq, Repr

/-- `isExpressionTainted`: identifiers and member-expression strings are
looked up in `this.taintedVariables`; call expressions with a member
callee are looked up in `this.taintSources` (which is never written). -/
def isExpressionTainted (st : TaintSt) : Expr → Bool
  | .ident n => n ∈ st.taintedVariables
  | .member o p => getMemberExpressionString (.member o p) ∈ st.taintedVariables
  | .call c _ =>
    match c with
    | .member _ _ => getMemberExpressionString c ∈ st.taintSources
    | _ => false
  | _ => false

/-- `isTainted`: a reconstructed string is tainted when some tainted
variable name occurs in it as a substring (`value.includes(taintedVar)`). -/
def isTainted (st : TaintSt) (value : String) : Bool :=
  st.taintedVariables.any fun v => strIncludes value v

/-- `extractTemplateLiteral`: quasi chunks concatenated, identifier
interpolations rendered as `$name`, member interpolations as the `$`-ed
dotted path, every other interpolation skipped. -/
def extractTemplateLiteral : List String → List Expr → String
  | [], _ => ""
  | q :: qs, [] => q ++ extractTemplateLiteral qs []
  | q :: qs, e :: es =>
    q ++ (match e with
          | .ident n => "$" ++ n
          | .member o p => "$" ++ getMemberExpressionString (.member o p)
          | _ => "") ++ extractTemplateLiteral qs es

/-- `extractCallInfo`: `null` on an empty argument list, otherwise the
reconstructed URL of the first argument paired with its `isTainted`
check.  Context metadata omitted. -/
def extractCallInfo (st : TaintSt) (args : List Expr) : Option (String × Bool) :=
  match args with
  | [] => none
  | firstArg :: _ =>
    let url := match firstArg with
      | .strLit v => v
      | .templateLit qs es => extractTemplateLiteral qs es
      | .ident n => "$" ++ n
      | _ => ""
    some (url, isTainted st url)

/-- `detectTaintSources`: a call whose member-expression callee renders to
a catalog entry records the source and marks the string tainted; a bare
`prompt`/`confirm`/`alert` callee records the source only. -/
def detectTaintSources (c : Ctx) (e : Expr) : Ctx :=
  let c1 := match calleeOf e with
    | some (.member o p) =>
      let s := getMemberExpressionString (.member o p)
      if s ∈ taintSourcesCatalog then
        { c with
          ana := { c.ana with taintSources := addUnique c.ana.taintSources s },
          st := { c.st with taintedVariables := addUnique c.st.taintedVariables s } }
      else c
    | _ => c
  match calleeOf e with
  | some (.ident n) =>
    if n = "prompt" ∨ n = "confirm" ∨ n = "alert" then
      { c1 with ana := { c1.ana with taintSources := addUnique c1.ana.taintSources n } }
    else c1
  | _ => c1

/-- `detectNetworkCalls`: the fetch branch pushes a network call and an
endpoint (method hard-coded `"GET"`, risk `"HIGH"` iff `isTainted url`,
else `"MEDIUM"`); the axios branch (member callee whose string starts
with `"axios."` or contains `".get"` or `".post"`) pushes a network call
only; the `XMLHttpRequest` branch requires the node to be a
new-expression, which never holds for the call-expression nodes the
visitor delivers. -/
def detectNetworkCalls (c : Ctx) (e : Expr) : Ctx :=
  let c1 := match calleeOf e with
    | some (.ident "fetch") =>
      match extractCallInfo c.st (argsOf e) with
      | some (url, ti) =>
        { c with ana := { c.ana with
            networkCalls := c.ana.networkCalls ++
              [{ ctype := "fetch", url := some url, tainted := some ti }],
            apiEndpoints := c.ana.apiEndpoints ++
              [{ method := "GET", url := url,
                 riskLevel := if isTainted c.st url then "HIGH" else "MEDIUM" }] } }
      | none => c
    | _ => c
  let c2 := match calleeOf e with
    | some (.member o p) =>
      let m := getMemberExpressionString (.member o p)
      if strStartsWith m "axios." ∨ strIncludes m ".get" ∨ strIncludes m ".post" then
        match extractCallInfo c1.st (argsOf e) with
        | some (url, ti) =>
          { c1 with ana := { c1.ana with
              networkCalls := c1.ana.networkCalls ++
                [{ ctype := "axios", method := some m, url := some url,
                   tainted := some ti }] } }
        | none => c1
      else c1
    | _ => c1
  match e, calleeOf e with
  | .newE _ _, some (.ident "XMLHttpRequest") =>
    { c2 with ana := { c2.ana with
        networkCalls := c2.ana.networkCalls ++ [{ ctype := "XMLHttpRequest" }] } }
  | _, _ => c2

/-- Add a variable name to both the per-file and the instance tainted
sets (the shared body of the two tracking handlers). -/
def taintName (c : Ctx) (n : String) : Ctx :=
  { c with
    ana := { c.ana with taintedVariables := addUnique c.ana.taintedVariables n },
    st := { c.st with taintedVariables := addUnique c.st.taintedVariables n } }

/-- `trackVariableAssignment`: `x = expr` taints `x` when `expr` is
tainted. -/
def trackVariableAssignment (c : Ctx) (left right : Expr) : Ctx :=
  match left with
  | .ident n => if isExpressionTainted c.st right then taintName c n else c
  | _ => c

/-- `trackVariableDeclaration`: `let x = expr` taints `x` when an
initializer is present and tainted. -/
def trackVariableDeclaration (c : Ctx) (name : String) (init : Option Expr) : Ctx :=
  match init with
  | some e => if isExpressionTainted c.st e then taintName c name else c
  | none => c

/-- `detectDangerousPatterns`: a `+` with a tainted operand records a
`string_concat` pattern. -/
def detectDangerousPatterns (c : Ctx) (op : String) (l r : Expr) : Ctx :=
  if op = "+" ∧ (isExpressionTainted c.st l ∨ isExpressionTainted c.st r) then
    { c with ana := { c.ana with
        dangerousPatterns := c.ana.dangerousPatterns ++ ["string_concat"] } }
  else c

/-- `detectTemplateLiteralInjection`: a template literal with some tainted
interpolation records one `template_literal_injection` pattern (the
source loop breaks after the first hit). -/
def detectTemplateLiteralInjection (c : Ctx) (es : List Expr) : Ctx :=
  if es.any (isExpressionTainted c.st) then
    { c with ana := { c.ana with
        dangerousPatterns := c.ana.dangerousPatterns ++ ["template_literal_injection"] } }
  else c

/-- One traversal event dispatched to the registered handlers, in the
registration order of `analyzeFile`'s visitor (`detectTaintSources` then
`detectNetworkCalls` on call expressions). -/
def step (c : Ctx) (n : Node) : Ctx :=
  match n with
  | .expr e =>
    match e with
    | .call _ _ => detectNetworkCalls (detectTaintSources c e) e
    | .assign l r => trackVariableAssignment c l r
    | .binary op l r => detectDangerousPatterns c op l r
    | .templateLit _ es => detectTemplateLiteralInjection c es
    | _ => c
  | .decl name init => trackVariableDeclaration c name init

/-- The traversal of `analyzeFile` on a successfully parsed program:
a fold of `step` over the pre-order events, starting from the given
instance state and a fresh per-file analysis. -/
def runTraversal (st : TaintSt) (p : Program) : Ctx :=
  (programEvents p).foldl step { st := st, ana := {} }

/-!
### The `main` aggregation loop of `src/analyze-js.js`

One `TaintAnalyzer` instance is created for the whole run; `analyzeFile`
is called on every file in order.  A parse failure pushes one
`{file, error}` entry onto `this.astErrors` and returns `null`; the loop
then aggregates nothing for that file and moves on.  Parsing itself is
done by the external `@babel/parser`, so a source file is modelled as a
path plus its parse outcome.
-/

/-- One input file: its path and the outcome of `@babel/parser.parse`. -/
structure SrcFile where
  path : String
  parsed : Except String Program

/-- An `astErrors` entry. -/
structure AstErr where
  file : String
  error : String
deriving DecidableEq, Repr

/-- The aggregate `results` object of `main` (summary counts that are
plain lengths of these lists are omitted). -/
structure RunResults where
  files : List Analysis := []
  analyzedFiles : Nat := 0
  networkCalls : List NetCall := []
  apiEndpoints : List Endpoint := []
  dangerousPatterns : List String := []
  taintSources : List String := []
  astErrors : List AstErr := []
deriving DecidableEq, Repr

/-- The taint-source aggregation of `main`: push each per-file source not
already present. -/
def mergeTaintSources (acc : List String) (new : List String) : List String :=
  new.foldl addUnique acc

/-- One iteration of `main`'s file loop: `analyzeFile` (parse, record a
parse error, or traverse) followed by the aggregation of the per-file
analysis.  The accumulator carries the instance taint state alongside the
aggregate results. -/
def processFile (acc : TaintSt × RunResults) (f : SrcFile) : TaintSt × RunResults :=
  match f.parsed with
  | .error msg =>
    (acc.1, { acc.2 with astErrors := acc.2.astErrors ++ [{ file := f.path, error := msg }] })
  | .ok prog =>
    let c := runTraversal acc.1 prog
    (c.st, { acc.2 with
      files := acc.2.files ++ [c.ana],
      analyzedFiles := acc.2.analyzedFiles + 1,
      networkCalls := acc.2.networkCalls ++ c.ana.networkCalls,
      apiEndpoints := acc.2.apiEndpoints ++ c.ana.apiEndpoints,
      dangerousPatterns := acc.2.dangerousPatterns ++ c.ana.dangerousPatterns,
      taintSources := mergeTaintSources acc.2.taintSources c.ana.taintSources })

/-- The whole run of `main` over a list of files, with one fresh analyzer
instance. -/
def runAnalysis (files : List SrcFile) : RunResults :=
  (files.foldl processFile ({}, {})).2

end TaintAnalyzer

/-!
## `src/index.ts` — the `analyzeJavaScriptAPIEndpoints` pipeline

`detectNetworkCalls` walks the Babel AST with a visitor registered for
`CallExpression` only and collects call records; `extractCallInfo` maps
each argument to a tagged reconstruction; `extractNetworkCallMetadata`
derives the method and other metadata via `inferMethod` and friends.
-/

namespace Srv

open MCP

/-- `JVal`: the values `extractObjectExpression` produces — a string
(literal value or `$name` placeholder) or a nested object. -/
inductive JVal where
  | str (s : String)
  | obj (fields : List (String × JVal))

mutual

/-- `extractObjectExpression`: identifier-keyed properties with a string
literal, identifier, or nested object-literal value are kept (later
duplicate keys overwrite earlier ones in the JS object, modelled by
keeping the list and looking up the last binding); everything else is
skipped. -/
def extractObjectExpression : List (PropKey × Expr) → List (String × JVal)
  | [] => []
  | (some k, v) :: ps => extractPropValue k v ++ extractObjectExpression ps
  | (none, _) :: ps => extractObjectExpression ps

/-- The per-property body of `extractObjectExpression`'s loop. -/
def extractPropValue (k : String) : Expr → List (String × JVal)
  | .strLit s => [(k, JVal.str s)]
  | .ident n => [(k, JVal.str ("$" ++ n))]
  | .objectLit qs => [(k, JVal.obj (extractObjectExpression qs))]
  | _ => []

end

mutual

/-- `extractExpression`: identifier → bare name, string literal → quoted
value, template literal → recursive reconstruction, anything else →
`"..."`. -/
def extractExpression : Expr → String
  | .ident n => n
  | .strLit s => "\"" ++ s ++ "\""
  | .templateLit qs es => extractTemplateLiteral qs es
  | _ => "..."

/-- `extractTemplateLiteral` (index.ts version): quasi chunks with every
interpolated expression rendered as `${<extractExpression>}`. -/
def extractTemplateLiteral : List String → List Expr → String
  | [], _ => ""
  | q :: qs, [] => q ++ extractTemplateLiteral qs []
  | q :: qs, e :: es =>
    q ++ "$\x7b" ++ extractExpression e ++ "\x7d" ++ extractTemplateLiteral qs es

end

/-- One reconstructed argument of `extractCallInfo`
(`{type, value}` pairs). -/
inductive ArgInfo where
  | strA (value : String)
  | templateA (value : String)
  | identA (value : String)
  | objectA (value : List (String × JVal))
  | unknownA

/-- The argument mapping of `extractCallInfo` (the `unknown` case carries
the fixed value `"..."`). -/
def mapArg : Expr → ArgInfo
  | .strLit s => .strA s
  | .templateLit qs es => .templateA (extractTemplateLiteral qs es)
  | .ident n => .identA n
  | .objectLit ps => .objectA (extractObjectExpression ps)
  | _ => .unknownA

/-- A call record pushed by `detectNetworkCalls` (file, line, column and
context window omitted; `method` is the axios property name). -/
structure CallRec where
  ctype : String
  method : Option String := none
  args : List ArgInfo

/-- The axios property names accepted by the axios branch. -/
def axiosMethods : List String :=
  ["get", "post", "put", "delete", "patch", "head", "options"]

/-- The body of the `CallExpression` visitor: the fetch branch, the axios
branch (member callee with object `axios` and an accepted property), and
the `XMLHttpRequest`/`WebSocket` branches, which additionally require the
node to be a new-expression — never true of the call-expression nodes the
visitor delivers. -/
def detectOnCallNode (e : Expr) : List CallRec :=
  let fetchL := match calleeOf e with
    | some (.ident "fetch") => [{ ctype := "fetch", args := (argsOf e).map mapArg }]
    | _ => []
  let axiosL := match calleeOf e with
    | some (.member (.ident "axios") p) =>
      if p ∈ axiosMethods then
        [{ ctype := "axios", method := some p, args := (argsOf e).map mapArg }]
      else []
    | _ => []
  let xhrL := match e with
    | .newE (.ident "XMLHttpRequest") _ =>
      [{ ctype := "XMLHttpRequest", args := (argsOf e).map mapArg }]
    | _ => []
  let wsL := match e with
    | .newE (.ident "WebSocket") _ =>
      [{ ctype := "WebSocket", args := (argsOf e).map mapArg }]
    | _ => []
  fetchL ++ axiosL ++ xhrL ++ wsL

/-- `detectNetworkCalls` (index.ts): the visitor fires on every
`CallExpression` node of the traversal, in source order. -/
def detectNetworkCalls (p : Program) : List CallRec :=
  (programEvents p).flatMap fun n =>
    match n with
    | .expr (.call c a) => detectOnCallNode (.call c a)
    | _ => []

/-- JS object property read `obj.method` on the reconstructed object:
the last binding of the key wins. -/
def lookupLast (k : String) (kvs : List (String × JVal)) : Option JVal :=
  ((kvs.filter fun kv => kv.1 == k).getLast?).map Prod.snd

/-- JS truthiness of `call.method` (a missing or empty string is falsy). -/
def truthyStrOpt : Option String → Bool
  | some s => s ≠ ""
  | none => false

/-- `call.arguments[1].value.method` as read by `inferMethod`: present
only when the second argument was reconstructed as an object. -/
def methodProp (c : CallRec) : Option JVal :=
  match c.args[1]? with
  | some (ArgInfo.objectA kvs) => lookupLast "method" kvs
  | _ => none

/-- The fetch half of `inferMethod`'s body on the value of
`options.value.method`: a truthy string is upper-cased, an empty string
is falsy and falls through to `'GET'`, a missing property likewise, and
an object value is truthy but has no `toUpperCase`, so the JS call raises
a `TypeError` (modelled as `Except.error`). -/
def fetchOptionsMethod : Option JVal → Except String String
  | some (JVal.str s) => if s = "" then .ok "GET" else .ok (jsToUpper s)
  | some (JVal.obj _) => .error "TypeError: toUpperCase is not a function"
  | none => .ok "GET"

/-- `inferMethod`: axios records with a truthy method field yield the
upper-cased property name; fetch records consult
`call.arguments[1].value.method` via `fetchOptionsMethod`; everything
else yields `'GET'`. -/
def inferMethod (c : CallRec) : Except String String :=
  if c.ctype = "axios" ∧ truthyStrOpt c.method then
    .ok (jsToUpper (c.method.getD ""))
  else if c.ctype = "fetch" then
    fetchOptionsMethod (methodProp c)
  else .ok "GET"

/-- The HTTP method set named by the spec's testable property. -/
def httpMethods : List String :=
  ["GET", "POST", "PUT", "PATCH", "DELETE", "HEAD", "OPTIONS"]

end Srv

/-!
## `src/unnamed/part_001` — class `AcornAnalyzer`

`walk.simple` visits nodes with the provided callbacks firing after the
base walker has traversed the children (post-order); handlers are
registered for `CallExpression`, `NewExpression` and
`AssignmentExpression`.
-/

namespace AcornAnalyzer

open MCP

mutual

/-- Post-order listing of expression nodes, matching `walk.simple`'s
callback order. -/
def postEvents : Expr → List Expr
  | .strLit v => [.strLit v]
  | .ident n => [.ident n]
  | .member o p => postEvents o ++ [.member o p]
  | .templateLit qs es => postListEvents es ++ [.templateLit qs es]
  | .objectLit ps => postPropsEvents ps ++ [.objectLit ps]
  | .call c a => postEvents c ++ postListEvents a ++ [.call c a]
  | .newE c a => postEvents c ++ postListEvents a ++ [.newE c a]
  | .binary op l r => postEvents l ++ postEvents r ++ [.binary op l r]
  | .assign l r => postEvents l ++ postEvents r ++ [.assign l r]
  | .other => [.other]

def postListEvents : List Expr → List Expr
  | [] => []
  | e :: es => postEvents e ++ postListEvents es

def postPropsEvents : List (PropKey × Expr) → List Expr
  | [] => []
  | (_, v) :: ps => postEvents v ++ postPropsEvents ps

end

/-- Post-order events of a whole program (declarator initializers are
walked; no declarator callback is registered). -/
def programPostEvents (p : Program) : List Expr :=
  p.flatMap fun s =>
    match s with
    | .exprStmt e => postEvents e
    | .varDecl ds => ds.flatMap fun d =>
        match d.2 with
        | some e => postEvents e
        | none => []

/-- A `networkCalls` entry of the acorn analyzer. -/
structure ACall where
  ctype : String
  url : String
  method : String
deriving DecidableEq, Repr

/-- A `taintSources` entry of the acorn analyzer. -/
structure ATaint where
  variable_ : String
  source : String
deriving DecidableEq, Repr

/-- The per-file `analysis` record. -/
structure AAnalysis where
  networkCalls : List ACall := []
  taintSources : List ATaint := []
deriving DecidableEq, Repr

/-- `extractUrl`: string literal → its value, template literal →
`"Template: "` plus the joined quasis, identifier → `$name`, anything
else (or a missing argument) → `"N/A"`. -/
def extractUrl : Option Expr → String
  | none => "N/A"
  | some (.strLit v) => v
  | some (.templateLit qs _) => "Template: " ++ String.join qs
  | some (.ident n) => "$" ++ n
  | some _ => "N/A"

/-- The taint-pattern object names of `isTaintSource`. -/
def taintPatterns : List String :=
  ["location", "document", "window", "navigator", "localStorage",
   "sessionStorage", "cookie"]

/-- `isTaintSource`: a member expression whose object is an identifier
from the pattern list. -/
def isTaintSource : Expr → Bool
  | .member (.ident n) _ => n ∈ taintPatterns
  | _ => false

/-- `getTaintSource`: `object.name + "." + property.name` for member
expressions (only reached with an identifier object), `"Unknown"`
otherwise. -/
def getTaintSource : Expr → String
  | .member (.ident n) p => n ++ "." ++ p
  | .member _ p => "undefined." ++ p
  | _ => "Unknown"

/-- `analyzeCallExpression`: fetch pushes `{fetch, url, "GET"}`; a member
callee with object `axios` pushes `{axios, url, upper(property)}`; a
call whose callee is itself `new XMLHttpRequest(...)` pushes the
`"N/A"`/`"N/A"` record. -/
def analyzeCallExpression (a : AAnalysis) (e : Expr) : AAnalysis :=
  let a1 := match calleeOf e with
    | some (.ident "fetch") =>
      { a with networkCalls := a.networkCalls ++
          [{ ctype := "fetch", url := extractUrl (argsOf e)[0]?, method := "GET" }] }
    | _ => a
  let a2 := match calleeOf e with
    | some (.member (.ident "axios") p) =>
      { a1 with networkCalls := a1.networkCalls ++
          [{ ctype := "axios", url := extractUrl (argsOf e)[0]?, method := jsToUpper p }] }
    | _ => a1
  match calleeOf e with
  | some (.newE (.ident "XMLHttpRequest") _) =>
    { a2 with networkCalls := a2.networkCalls ++
        [{ ctype := "XMLHttpRequest", url := "N/A", method := "N/A" }] }
  | _ => a2

/-- `analyzeNewExpression`: `new XMLHttpRequest(...)` pushes one evidence
record with `url = "N/A"` and `method = "N/A"`. -/
def analyzeNewExpression (a : AAnalysis) (e : Expr) : AAnalysis :=
  match e with
  | .newE (.ident "XMLHttpRequest") _ =>
    { a with networkCalls := a.networkCalls ++
        [{ ctype := "XMLHttpRequest", url := "N/A", method := "N/A" }] }
  | _ => a

/-- `analyzeAssignment`: an identifier assigned from a taint-source
member expression records a taint-source entry. -/
def analyzeAssignment (a : AAnalysis) (e : Expr) : AAnalysis :=
  match e with
  | .assign (.ident n) r =>
    if isTaintSource r then
      { a with taintSources := a.taintSources ++
          [{ variable_ := n, source := getTaintSource r }] }
    else a
  | _ => a

/-- Dispatch of `walk.simple`'s registered callbacks. -/
def stepA (a : AAnalysis) (e : Expr) : AAnalysis :=
  match e with
  | .call _ _ => analyzeCallExpression a e
  | .newE _ _ => analyzeNewExpression a e
  | .assign _ _ => analyzeAssignment a e
  | _ => a

/-- `analyzeFile`'s walk over a parsed program. -/
def acornAnalyze (p : Program) : AAnalysis :=
  (programPostEvents p).foldl stepA {}

end AcornAnalyzer

/-!
## Helper lemmas
-/

namespace TaintAnalyzer

theorem mem_addUnique (l : List String) (s v : String) (h : v ∈ l) :
    v ∈ addUnique l s := by
  unfold addUnique
  split
  · exact h
  · exact List.mem_append_left _ h

theorem self_mem_addUnique (l : List String) (s : String) : s ∈ addUnique l s := by
  unfold addUnique
  split
  · assumption
  · simp

/-- `detectTaintSources` never removes a tainted variable. -/
theorem detectTaintSources_st_mono (c : Ctx) (e : Expr) (v : String)
    (h : v ∈ c.st.taintedVariables) :
    v ∈ (detectTaintSources c e).st.taintedVariables := by
  unfold detectTaintSources
  dsimp only
  repeat' split
  all_goals simp_all [mem_addUnique]

/-- `detectTaintSources` does not touch the per-file tainted set. -/
theorem detectTaintSources_ana_tainted (c : Ctx) (e : Expr) :
    (detectTaintSources c e).ana.taintedVariables = c.ana.taintedVariables := by
  unfold detectTaintSources
  dsimp only
  repeat' split
  all_goals rfl

/-- `detectNetworkCalls` never modifies the instance taint state. -/
theorem detectNetworkCalls_st (c : Ctx) (e : Expr) :
    (detectNetworkCalls c e).st = c.st := by
  unfold detectNetworkCalls
  dsimp only
  repeat' split
  all_goals rfl

/-- `detectNetworkCalls` does not touch the per-file tainted set. -/
theorem detectNetworkCalls_ana_tainted (c : Ctx) (e : Expr) :
    (detectNetworkCalls c e).ana.taintedVariables = c.ana.taintedVariables := by
  unfold detectNetworkCalls
  dsimp only
  repeat' split
  all_goals rfl

/-- `taintName` only adds. -/
theorem taintName_st_mono (c : Ctx) (n v : String) (h : v ∈ c.st.taintedVariables) :
    v ∈ (taintName c n).st.taintedVariables :=
  mem_addUnique _ _ _ h

theorem taintName_ana_mono (c : Ctx) (n v : String) (h : v ∈ c.ana.taintedVariables) :
    v ∈ (taintName c n).ana.taintedVariables :=
  mem_addUnique _ _ _ h

/-- Every endpoint present after `detectNetworkCalls` was already present,
or is the fetch endpoint with method `"GET"` and risk level decided by
`isTainted` on its URL against the taint state at detection time. -/
theorem detectNetworkCalls_apiEndpoints (c : Ctx) (e : Expr) :
    ∀ ep ∈ (detectNetworkCalls c e).ana.apiEndpoints,
      ep ∈ c.ana.apiEndpoints ∨
        (ep.method = "GET" ∧
         ep.riskLevel = if isTainted c.st ep.url then "HIGH" else "MEDIUM") := by
  unfold detectNetworkCalls
  dsimp only
  repeat' split
  all_goals intro ep hep
  all_goals simp_all
  all_goals rcases hep with h | h
  all_goals simp_all

/-- The non-call handlers leave the endpoint list unchanged, and the call
handlers change it only as described by `detectNetworkCalls_apiEndpoints`. -/
theorem step_apiEndpoints (c : Ctx) (n : Node) :
    ∀ ep ∈ (step c n).ana.apiEndpoints,
      ep ∈ c.ana.apiEndpoints ∨
        (ep.method = "GET" ∧ (ep.riskLevel = "HIGH" ∨ ep.riskLevel = "MEDIUM")) := by
  intro ep hep
  cases n with
  | expr e =>
    cases e <;> simp only [step] at hep
    case call callee args =>
      have h2 := detectNetworkCalls_apiEndpoints (detectTaintSources c (.call callee args))
        (.call callee args) ep hep
      rcases h2 with h2 | ⟨hm, hr⟩
      · left
        have h3 : (detectTaintSources c (.call callee args)).ana.apiEndpoints =
            c.ana.apiEndpoints := by
          unfold detectTaintSources
          dsimp only
          repeat' split
          all_goals rfl
        rwa [h3] at h2
      · right
        refine ⟨hm, ?_⟩
        split at hr
        · exact Or.inl hr
        · exact Or.inr hr
    case assign l r =>
      unfold trackVariableAssignment at hep
      split at hep
      · split at hep
        · exact Or.inl hep
        · exact Or.inl hep
      · exact Or.inl hep
    case binary op l r =>
      unfold detectDangerousPatterns at hep
      split at hep
      · exact Or.inl hep
      · exact Or.inl hep
    case templateLit qs es =>
      unfold detectTemplateLiteralInjection at hep
      split at hep
      · exact Or.inl hep
      · exact Or.inl hep
    all_goals exact Or.inl hep
  | decl name init =>
    simp only [step] at hep
    unfold trackVariableDeclaration at hep
    split at hep
    · split at hep
      · exact Or.inl hep
      · exact Or.inl hep
    · exact Or.inl hep

/-- Fold form of `step_apiEndpoints`. -/
theorem foldl_apiEndpoints (ns : List Node) :
    ∀ c : Ctx,
      (∀ ep ∈ c.ana.apiEndpoints,
        ep.method = "GET" ∧ (ep.riskLevel = "HIGH" ∨ ep.riskLevel = "MEDIUM")) →
      ∀ ep ∈ (ns.foldl step c).ana.apiEndpoints,
        ep.method = "GET" ∧ (ep.riskLevel = "HIGH" ∨ ep.riskLevel = "MEDIUM") := by
  induction ns with
  | nil => intro c h; exact h
  | cons n ns ih =>
    intro c h
    refine ih (step c n) ?_
    intro ep hep
    rcases step_apiEndpoints c n ep hep with h1 | h1
    · exact h ep h1
    · exact h1

end TaintAnalyzer

/-!
## Scenario inputs
-/

/-- Scenario A input: `fetch("https://api.example.com/users")`. -/
def scenarioA : Program :=
  [.exprStmt (.call (.ident "fetch") [.strLit "https://api.example.com/users"])]

/-- Scenario B input: `const q = location.search; fetch("/search?q=" + q)`. -/
def scenarioB : Program :=
  [.varDecl [("q", some (.member (.ident "location") "search"))],
   .exprStmt (.call (.ident "fetch")
     [.binary "+" (.strLit "/search?q=") (.ident "q")])]

/-!
## Claims
-/

/-- Claim C1 (code_bug evaluation): on
`const q = location.search; fetch("/search?q=" + q)` the analyzer of
`src/analyze-js.js` taints nothing (the declaration's right-hand side is a
plain member expression, checked against the initially empty
`this.taintedVariables`, while `detectTaintSources` only fires on call
callees), records no `string_concat` dangerous pattern, and emits the
fetch endpoint with reconstructed URL `""` and risk level `"MEDIUM"` —
against the claim's tainted `q`, one `string_concat` finding, and risk
level `HIGH`. -/
theorem claim1_scenarioB_code_divergence :
    (TaintAnalyzer.runTraversal {} scenarioB).ana.taintedVariables = [] ∧
    (TaintAnalyzer.runTraversal {} scenarioB).ana.dangerousPatterns = [] ∧
    (TaintAnalyzer.runTraversal {} scenarioB).ana.apiEndpoints =
      [{ method := "GET", url := "", riskLevel := "MEDIUM" }] := by
  refine ⟨rfl, rfl, rfl⟩

/-- Claim C2 (counterexample): the fully static input
`fetch("https://api.example.com/users")` yields exactly one endpoint, but
its risk level is `"MEDIUM"`, not the claimed `"LOW"` — `analyze-js.js`
never assigns `LOW`. -/
theorem claim2_scenarioA_risk_not_low :
    (TaintAnalyzer.runTraversal {} scenarioA).ana.apiEndpoints =
      [{ method := "GET", url := "https://api.example.com/users",
         riskLevel := "MEDIUM" }] ∧
    ("MEDIUM" : String) ≠ "LOW" := by
  exact ⟨rfl, by decide⟩

/-- Claim C2 (amended): an endpoint's risk level is `"HIGH"` exactly when,
at the moment `detectNetworkCalls` creates it, some tainted variable name
occurs as a substring of the reconstructed URL (`isTainted`), and
`"MEDIUM"` otherwise — `"LOW"` is never assigned and the body plays no
role; every endpoint of a whole-file traversal carries method `"GET"` and
risk `"HIGH"` or `"MEDIUM"`, and Scenario A yields exactly one endpoint
with method `GET`, the literal URL, and risk `"MEDIUM"`. -/
theorem claim2_riskLevel_amended :
    (∀ (c : TaintAnalyzer.Ctx) (e : Expr),
      ∀ ep ∈ (TaintAnalyzer.detectNetworkCalls c e).ana.apiEndpoints,
        ep ∈ c.ana.apiEndpoints ∨
          (ep.method = "GET" ∧
           ep.riskLevel =
             if TaintAnalyzer.isTainted c.st ep.url then "HIGH" else "MEDIUM")) ∧
    (∀ p : Program,
      ∀ ep ∈ (TaintAnalyzer.runTraversal {} p).ana.apiEndpoints,
        ep.method = "GET" ∧ (ep.riskLevel = "HIGH" ∨ ep.riskLevel = "MEDIUM")) ∧
    (TaintAnalyzer.runTraversal {} scenarioA).ana.apiEndpoints =
      [{ method := "GET", url := "https://api.example.com/users",
         riskLevel := "MEDIUM" }] := by
  refine ⟨TaintAnalyzer.detectNetworkCalls_apiEndpoints, ?_, rfl⟩
  intro p ep hep
  exact TaintAnalyzer.foldl_apiEndpoints (programEvents p) _ (by simp) ep hep

/-!
## Run-level lemmas for claims C3 and C4
-/

namespace TaintAnalyzer

/-- The error entry a file contributes, if any. -/
def errOf (f : SrcFile) : Option AstErr :=
  match f.parsed with
  | .error m => some { file := f.path, error := m }
  | .ok _ => none

/-- The error list accumulated by the run is exactly one entry per
parse-failing file, in file order. -/
theorem foldl_astErrors (fs : List SrcFile) :
    ∀ acc : TaintSt × RunResults,
      ((fs.foldl processFile acc).2).astErrors = acc.2.astErrors ++ fs.filterMap errOf := by
  induction fs with
  | nil => intro acc; simp
  | cons f fs ih =>
    intro acc
    rw [List.foldl_cons, ih]
    cases hp : f.parsed with
    | error m => simp [processFile, hp, errOf]
    | ok prog => simp [processFile, hp, errOf]

/-- Agreement of two aggregate results on everything except the error
list. -/
def resultsAgree (r r' : RunResults) : Prop :=
  r.files = r'.files ∧ r.analyzedFiles = r'.analyzedFiles ∧
  r.networkCalls = r'.networkCalls ∧ r.apiEndpoints = r'.apiEndpoints ∧
  r.dangerousPatterns = r'.dangerousPatterns ∧ r.taintSources = r'.taintSources

theorem processFile_agree (a a' : TaintSt × RunResults) (f : SrcFile)
    (hst : a.1 = a'.1) (hr : resultsAgree a.2 a'.2) :
    (processFile a f).1 = (processFile a' f).1 ∧
    resultsAgree (processFile a f).2 (processFile a' f).2 := by
  obtain ⟨h1, h2, h3, h4, h5, h6⟩ := hr
  cases hp : f.parsed with
  | error m => simp [processFile, hp, resultsAgree, hst, h1, h2, h3, h4, h5, h6]
  | ok prog => simp [processFile, hp, resultsAgree, hst, h1, h2, h3, h4, h5, h6]

theorem foldl_agree (fs : List SrcFile) :
    ∀ a a' : TaintSt × RunResults, a.1 = a'.1 → resultsAgree a.2 a'.2 →
      (fs.foldl processFile a).1 = (fs.foldl processFile a').1 ∧
      resultsAgree (fs.foldl processFile a).2 (fs.foldl processFile a').2 := by
  induction fs with
  | nil => intro a a' hst hr; exact ⟨hst, hr⟩
  | cons f fs ih =>
    intro a a' hst hr
    rw [List.foldl_cons, List.foldl_cons]
    obtain ⟨hst', hr'⟩ := processFile_agree a a' f hst hr
    exact ih _ _ hst' hr'

end TaintAnalyzer

/-- A parse-failing file `bad.js` for the error-handling claims. -/
def badFile : TaintAnalyzer.SrcFile :=
  { path := "bad.js", parsed := .error "Unterminated string constant" }

/-- A parse-succeeding static file for the error-handling witnesses. -/
def staticFile : TaintAnalyzer.SrcFile :=
  { path := "static.js", parsed := .ok scenarioA }

/-- Claim C4 (confirmed): the run's error list holds exactly one entry per
parse-failing file (in order), and removing a parse-failing file from the
input list changes none of the aggregated findings — the failing file
contributes zero `networkCalls`/`apiEndpoints` entries and the remaining
files are analyzed exactly as before, so a parse failure never aborts the
run. -/
theorem claim4_parse_errors_isolated :
    (∀ fs : List TaintAnalyzer.SrcFile,
      (TaintAnalyzer.runAnalysis fs).astErrors = fs.filterMap TaintAnalyzer.errOf) ∧
    (∀ (l₁ l₂ : List TaintAnalyzer.SrcFile) (f : TaintAnalyzer.SrcFile) (m : String),
      f.parsed = .error m →
      (TaintAnalyzer.runAnalysis (l₁ ++ f :: l₂)).files =
        (TaintAnalyzer.runAnalysis (l₁ ++ l₂)).files ∧
      (TaintAnalyzer.runAnalysis (l₁ ++ f :: l₂)).analyzedFiles =
        (TaintAnalyzer.runAnalysis (l₁ ++ l₂)).analyzedFiles ∧
      (TaintAnalyzer.runAnalysis (l₁ ++ f :: l₂)).networkCalls =
        (TaintAnalyzer.runAnalysis (l₁ ++ l₂)).networkCalls ∧
      (TaintAnalyzer.runAnalysis (l₁ ++ f :: l₂)).apiEndpoints =
        (TaintAnalyzer.runAnalysis (l₁ ++ l₂)).apiEndpoints ∧
      (TaintAnalyzer.runAnalysis (l₁ ++ f :: l₂)).dangerousPatterns =
        (TaintAnalyzer.runAnalysis (l₁ ++ l₂)).dangerousPatterns ∧
      (TaintAnalyzer.runAnalysis (l₁ ++ f :: l₂)).taintSources =
        (TaintAnalyzer.runAnalysis (l₁ ++ l₂)).taintSources) := by
  constructor
  · intro fs
    have h := TaintAnalyzer.foldl_astErrors fs ({}, {})
    simpa [TaintAnalyzer.runAnalysis] using h
  · intro l₁ l₂ f m hf
    unfold TaintAnalyzer.runAnalysis
    rw [List.foldl_append, List.foldl_append, List.foldl_cons]
    have hagree := TaintAnalyzer.foldl_agree l₂
      (TaintAnalyzer.processFile (l₁.foldl TaintAnalyzer.processFile ({}, {})) f)
      (l₁.foldl TaintAnalyzer.processFile ({}, {}))
      (by simp [TaintAnalyzer.processFile, hf])
      (by simp [TaintAnalyzer.processFile, hf, TaintAnalyzer.resultsAgree])
    obtain ⟨-, h1, h2, h3, h4, h5, h6⟩ := hagree
    exact ⟨h1, h2, h3, h4, h5, h6⟩

/-- Witness for `claim4_parse_errors_isolated`: a parse-failing file
between two copies of a static file leaves every finding list unchanged. -/
theorem claim4_parse_errors_isolated_witness :
    (TaintAnalyzer.runAnalysis [staticFile, badFile, staticFile]).apiEndpoints =
      (TaintAnalyzer.runAnalysis [staticFile, staticFile]).apiEndpoints ∧
    (TaintAnalyzer.runAnalysis [staticFile, badFile, staticFile]).networkCalls =
      (TaintAnalyzer.runAnalysis [staticFile, staticFile]).networkCalls :=
  ⟨(claim4_parse_errors_isolated.2 [staticFile] [staticFile] badFile
      "Unterminated string constant" rfl).2.2.2.1,
   (claim4_parse_errors_isolated.2 [staticFile] [staticFile] badFile
      "Unterminated string constant" rfl).2.2.1⟩

/-- File A for the cross-file counterexample: the bare call
`localStorage.getItem("k")` adds the member string to the instance-level
tainted set. -/
def fileA : TaintAnalyzer.SrcFile :=
  { path := "a.js",
    parsed := .ok [.exprStmt (.call (.member (.ident "localStorage") "getItem")
      [.strLit "k"])] }

/-- File B for the cross-file counterexample: `const g = localStorage.getItem;`
is tainted exactly when the member string is already in the instance
tainted set. -/
def fileB : TaintAnalyzer.SrcFile :=
  { path := "b.js",
    parsed := .ok [.varDecl [("g", some (.member (.ident "localStorage") "getItem"))]] }

/-- Claim C3 (counterexample): analyzing `fileB` after `fileA` taints `g`,
while analyzing `fileB` alone taints nothing — the per-file findings of B
depend on which files preceded it, refuting the two-run noninterference
statement. -/
theorem claim3_cross_file_taint_leak :
    ((TaintAnalyzer.runAnalysis [fileA, fileB]).files.map
        TaintAnalyzer.Analysis.taintedVariables) = [[], ["g"]] ∧
    ((TaintAnalyzer.runAnalysis [fileB]).files.map
        TaintAnalyzer.Analysis.taintedVariables) = [[]] := by
  exact ⟨rfl, rfl⟩

/-- Claim C3 (amended): the per-file analysis record is created fresh for
every file, but the analyzer instance's tainted-variable state persists
across files and is never reset; file B's findings after file A coincide
with B analyzed alone exactly in the benign case in which analyzing A
leaves the instance taint state unchanged. -/
theorem claim3_reset_conditional_amended
    (A B : TaintAnalyzer.SrcFile) (pa : Program)
    (hA : A.parsed = .ok pa)
    (hst : (TaintAnalyzer.runTraversal {} pa).st = {}) :
    (TaintAnalyzer.runAnalysis [A, B]).files.drop 1 =
      (TaintAnalyzer.runAnalysis [B]).files := by
  cases hB : B.parsed with
  | error m =>
    simp [TaintAnalyzer.runAnalysis, TaintAnalyzer.processFile, hA, hB, hst]
  | ok pb =>
    simp [TaintAnalyzer.runAnalysis, TaintAnalyzer.processFile, hA, hB, hst]

/-- Witness for `claim3_reset_conditional_amended`: the taint-free static
file before `fileB`. -/
theorem claim3_reset_conditional_amended_witness :
    (TaintAnalyzer.runAnalysis [staticFile, fileB]).files.drop 1 =
      (TaintAnalyzer.runAnalysis [fileB]).files :=
  claim3_reset_conditional_amended staticFile fileB scenarioA rfl rfl

/-!
## Monotonicity lemmas for claim C9
-/

namespace TaintAnalyzer

theorem detectDangerousPatterns_st (c : Ctx) (op : String) (l r : Expr) :
    (detectDangerousPatterns c op l r).st = c.st := by
  unfold detectDangerousPatterns
  split
  all_goals rfl

theorem detectDangerousPatterns_ana_tainted (c : Ctx) (op : String) (l r : Expr) :
    (detectDangerousPatterns c op l r).ana.taintedVariables = c.ana.taintedVariables := by
  unfold detectDangerousPatterns
  split
  all_goals rfl

theorem detectTemplateLiteralInjection_st (c : Ctx) (es : List Expr) :
    (detectTemplateLiteralInjection c es).st = c.st := by
  unfold detectTemplateLiteralInjection
  split
  all_goals rfl

theorem detectTemplateLiteralInjection_ana_tainted (c : Ctx) (es : List Expr) :
    (detectTemplateLiteralInjection c es).ana.taintedVariables = c.ana.taintedVariables := by
  unfold detectTemplateLiteralInjection
  split
  all_goals rfl

/-- No handler ever removes a name from the instance tainted set. -/
theorem step_st_tainted_mono (c : Ctx) (n : Node) (v : String)
    (h : v ∈ c.st.taintedVariables) : v ∈ (step c n).st.taintedVariables := by
  cases n with
  | expr e =>
    cases e <;> simp only [step]
    case call callee args =>
      rw [detectNetworkCalls_st]
      exact detectTaintSources_st_mono c _ v h
    case assign l r =>
      unfold trackVariableAssignment
      repeat' split
      all_goals first
        | exact h
        | exact taintName_st_mono c _ v h
    case binary op l r =>
      rw [detectDangerousPatterns_st]; exact h
    case templateLit qs es =>
      rw [detectTemplateLiteralInjection_st]; exact h
    all_goals exact h
  | decl name init =>
    simp only [step]
    unfold trackVariableDeclaration
    repeat' split
    all_goals first
      | exact h
      | exact taintName_st_mono c _ v h

/-- No handler ever removes a name from the per-file tainted set. -/
theorem step_ana_tainted_mono (c : Ctx) (n : Node) (v : String)
    (h : v ∈ c.ana.taintedVariables) : v ∈ (step c n).ana.taintedVariables := by
  cases n with
  | expr e =>
    cases e <;> simp only [step]
    case call callee args =>
      rw [detectNetworkCalls_ana_tainted, detectTaintSources_ana_tainted]
      exact h
    case assign l r =>
      unfold trackVariableAssignment
      repeat' split
      all_goals first
        | exact h
        | exact taintName_ana_mono c _ v h
    case binary op l r =>
      rw [detectDangerousPatterns_ana_tainted]; exact h
    case templateLit qs es =>
      rw [detectTemplateLiteralInjection_ana_tainted]; exact h
    all_goals exact h
  | decl name init =>
    simp only [step]
    unfold trackVariableDeclaration
    repeat' split
    all_goals first
      | exact h
      | exact taintName_ana_mono c _ v h

theorem foldl_st_tainted_mono (ns : List Node) :
    ∀ (c : Ctx) (v : String), v ∈ c.st.taintedVariables →
      v ∈ (ns.foldl step c).st.taintedVariables := by
  induction ns with
  | nil => intro c v h; exact h
  | cons n ns ih =>
    intro c v h
    exact ih (step c n) v (step_st_tainted_mono c n v h)

theorem foldl_ana_tainted_mono (ns : List Node) :
    ∀ (c : Ctx) (v : String), v ∈ c.ana.taintedVariables →
      v ∈ (ns.foldl step c).ana.taintedVariables := by
  induction ns with
  | nil => intro c v h; exact h
  | cons n ns ih =>
    intro c v h
    exact ih (step c n) v (step_ana_tainted_mono c n v h)

end TaintAnalyzer

/-- Claim C9 (confirmed): taint is monotonic within a file — no handler
ever removes a name from the instance-level or per-file tainted set, and
a name present in either set after any prefix of the traversal is still
present after the whole traversal, regardless of what the remaining
events (including reassignments of that name to non-tainted values) do. -/
theorem claim9_taint_monotonic :
    (∀ (c : TaintAnalyzer.Ctx) (n : Node) (v : String),
      v ∈ c.st.taintedVariables → v ∈ (TaintAnalyzer.step c n).st.taintedVariables) ∧
    (∀ (c : TaintAnalyzer.Ctx) (n : Node) (v : String),
      v ∈ c.ana.taintedVariables → v ∈ (TaintAnalyzer.step c n).ana.taintedVariables) ∧
    (∀ (c : TaintAnalyzer.Ctx) (ns₁ ns₂ : List Node) (v : String),
      v ∈ (ns₁.foldl TaintAnalyzer.step c).st.taintedVariables →
      v ∈ ((ns₁ ++ ns₂).foldl TaintAnalyzer.step c).st.taintedVariables) ∧
    (∀ (c : TaintAnalyzer.Ctx) (ns₁ ns₂ : List Node) (v : String),
      v ∈ (ns₁.foldl TaintAnalyzer.step c).ana.taintedVariables →
      v ∈ ((ns₁ ++ ns₂).foldl TaintAnalyzer.step c).ana.taintedVariables) := by
  refine ⟨TaintAnalyzer.step_st_tainted_mono, TaintAnalyzer.step_ana_tainted_mono, ?_, ?_⟩
  · intro c ns₁ ns₂ v h
    rw [List.foldl_append]
    exact TaintAnalyzer.foldl_st_tainted_mono ns₂ _ v h
  · intro c ns₁ ns₂ v h
    rw [List.foldl_append]
    exact TaintAnalyzer.foldl_ana_tainted_mono ns₂ _ v h

/-- Witness for `claim9_taint_monotonic`: the member string tainted by
file A's call survives the traversal of further events, among them a
reassignment-shaped declaration. -/
theorem claim9_taint_monotonic_witness :
    "localStorage.getItem" ∈
      (((programEvents
          [.exprStmt (.call (.member (.ident "localStorage") "getItem") [.strLit "k"])]) ++
        (programEvents [.varDecl [("g", some (.strLit "clean"))]])).foldl
          TaintAnalyzer.step {}).st.taintedVariables :=
  claim9_taint_monotonic.2.2.1 {} _ _ "localStorage.getItem" (by decide)

/-- Claim C10 (confirmed): a call-expression with an empty argument list
makes `extractCallInfo` return `null`, so neither the fetch branch nor
the axios branch of `detectNetworkCalls` records anything — no network
call, no endpoint, no error, for every possible callee. -/
theorem claim10_empty_args_dropped :
    (∀ st : TaintAnalyzer.TaintSt, TaintAnalyzer.extractCallInfo st [] = none) ∧
    (∀ (c : TaintAnalyzer.Ctx) (callee : Expr),
      (TaintAnalyzer.detectNetworkCalls c (.call callee [])).ana.networkCalls =
        c.ana.networkCalls ∧
      (TaintAnalyzer.detectNetworkCalls c (.call callee [])).ana.apiEndpoints =
        c.ana.apiEndpoints) := by
  refine ⟨fun st => rfl, fun c callee => ?_⟩
  unfold TaintAnalyzer.detectNetworkCalls
  dsimp only [calleeOf, argsOf]
  repeat' split
  all_goals simp_all [TaintAnalyzer.extractCallInfo]

/-!
## Reconstruction predicates for claim C8
-/

/-- URL-argument kinds not covered by `extractCallInfo`'s reconstruction
(everything except string literal, template literal, identifier). -/
def uncoveredUrlArg : Expr → Bool
  | .strLit _ => false
  | .templateLit _ _ => false
  | .ident _ => false
  | _ => true

/-- Interpolation kinds not covered by `extractTemplateLiteral`
(everything except identifier and member expression). -/
def uncoveredInterp : Expr → Bool
  | .ident _ => false
  | .member _ _ => false
  | _ => true

/-- Claim C8 (counterexample): in `analyze-js.js`, an uncovered URL
argument (here a `+` concatenation) reconstructs to the empty string, not
to the `...` placeholder, and an uncovered template interpolation is
dropped entirely (`` `/x${a + b}` `` reconstructs to `"/x"`). -/
theorem claim8_uncovered_not_ellipsis :
    (TaintAnalyzer.extractCallInfo {}
        [.binary "+" (.strLit "a") (.ident "b")]).map Prod.fst = some "" ∧
    ("" : String) ≠ "..." ∧
    TaintAnalyzer.extractTemplateLiteral ["/x", ""]
      [.binary "+" (.ident "a") (.ident "b")] = "/x" ∧
    ("/x" : String) ≠ "/x..." := by
  exact ⟨rfl, by decide, by decide, by decide⟩

/-- Claim C8 (amended): `analyze-js.js` URL reconstruction maps an
identifier argument to `$<name>`; a template literal concatenates its
chunks, rendering identifier interpolations as `$<name>` and
member-expression interpolations as the `$`-ed dotted path, and omitting
every other interpolated expression; every other URL-argument kind
reconstructs to the empty string — never fabricated content, but the
unknown marker is `""`/omission, not `...`. -/
theorem claim8_reconstruction_amended :
    (∀ (st : TaintAnalyzer.TaintSt) (n : String) (rest : List Expr),
      (TaintAnalyzer.extractCallInfo st (.ident n :: rest)).map Prod.fst =
        some ("$" ++ n)) ∧
    (∀ (st : TaintAnalyzer.TaintSt) (e : Expr) (rest : List Expr),
      uncoveredUrlArg e = true →
      (TaintAnalyzer.extractCallInfo st (e :: rest)).map Prod.fst = some "") ∧
    (∀ (q : String) (qs : List String) (n : String) (es : List Expr),
      TaintAnalyzer.extractTemplateLiteral (q :: qs) (.ident n :: es) =
        q ++ ("$" ++ n) ++ TaintAnalyzer.extractTemplateLiteral qs es) ∧
    (∀ (q : String) (qs : List String) (o : Expr) (p : String) (es : List Expr),
      TaintAnalyzer.extractTemplateLiteral (q :: qs) (.member o p :: es) =
        q ++ ("$" ++ TaintAnalyzer.getMemberExpressionString (.member o p)) ++
          TaintAnalyzer.extractTemplateLiteral qs es) ∧
    (∀ (q : String) (qs : List String) (e : Expr) (es : List Expr),
      uncoveredInterp e = true →
      TaintAnalyzer.extractTemplateLiteral (q :: qs) (e :: es) =
        q ++ TaintAnalyzer.extractTemplateLiteral qs es) := by
  refine ⟨fun st n rest => rfl, ?_, fun q qs n es => rfl, fun q qs o p es => rfl, ?_⟩
  · intro st e rest h
    cases e <;> simp_all [uncoveredUrlArg, TaintAnalyzer.extractCallInfo]
  · intro q qs e es h
    cases e <;> simp_all [uncoveredInterp, TaintAnalyzer.extractTemplateLiteral]

/-- Witness for `claim8_reconstruction_amended`: the uncovered cases at a
concrete `other`-kind expression. -/
theorem claim8_reconstruction_amended_witness :
    (TaintAnalyzer.extractCallInfo {} [.other]).map Prod.fst = some "" ∧
    TaintAnalyzer.extractTemplateLiteral ["a", "b"] [.other] =
      "a" ++ TaintAnalyzer.extractTemplateLiteral ["b"] [] :=
  ⟨claim8_reconstruction_amended.2.1 {} .other [] rfl,
   claim8_reconstruction_amended.2.2.2.2 "a" ["b"] .other [] rfl⟩

/-!
## Shape lemmas for the index.ts detector (claims C5 and C7)
-/

namespace Srv

/-- Every record the `CallExpression` handler pushes is a fetch record
without a method field, an axios record whose method is one of the seven
accepted property names, or one of the (unreachable from the visitor)
constructor records. -/
theorem detectOnCallNode_shape (e : Expr) (r : CallRec)
    (hr : r ∈ detectOnCallNode e) :
    (r.ctype = "fetch" ∧ r.method = none) ∨
    (r.ctype = "axios" ∧ ∃ m, r.method = some m ∧ m ∈ axiosMethods) ∨
    r.ctype = "XMLHttpRequest" ∨ r.ctype = "WebSocket" := by
  unfold detectOnCallNode at hr
  dsimp only at hr
  rw [List.mem_append, List.mem_append, List.mem_append] at hr
  rcases hr with ((h | h) | h) | h
  · split at h
    · simp only [List.mem_singleton] at h
      subst h
      exact Or.inl ⟨rfl, rfl⟩
    · exact absurd h (List.not_mem_nil r)
  · split at h
    case h_1 o p heq =>
      split at h
      case isTrue hmem =>
        simp only [List.mem_singleton] at h
        subst h
        exact Or.inr (Or.inl ⟨rfl, _, rfl, hmem⟩)
      case isFalse => exact absurd h (List.not_mem_nil r)
    case h_2 => exact absurd h (List.not_mem_nil r)
  · split at h
    · simp only [List.mem_singleton] at h
      subst h
      exact Or.inr (Or.inr (Or.inl rfl))
    · exact absurd h (List.not_mem_nil r)
  · split at h
    · simp only [List.mem_singleton] at h
      subst h
      exact Or.inr (Or.inr (Or.inr rfl))
    · exact absurd h (List.not_mem_nil r)

/-- On an axios record with a non-empty method, `inferMethod` upper-cases
the method. -/
theorem inferMethod_axios (r : CallRec) (m : String) (hax : r.ctype = "axios")
    (hm : r.method = some m) (hne : m ≠ "") :
    inferMethod r = .ok (jsToUpper m) := by
  have hcond : r.ctype = "axios" ∧ truthyStrOpt r.method = true := by
    refine ⟨hax, ?_⟩
    rw [hm]
    simp [truthyStrOpt, hne]
  unfold inferMethod
  rw [if_pos hcond, hm]
  rfl

/-- Lift of `detectOnCallNode_shape` to whole programs. -/
theorem detectNetworkCalls_shape (p : Program) (r : CallRec)
    (hr : r ∈ detectNetworkCalls p) :
    (r.ctype = "fetch" ∧ r.method = none) ∨
    (r.ctype = "axios" ∧ ∃ m, r.method = some m ∧ m ∈ axiosMethods) ∨
    r.ctype = "XMLHttpRequest" ∨ r.ctype = "WebSocket" := by
  unfold detectNetworkCalls at hr
  rw [List.mem_flatMap] at hr
  obtain ⟨n, -, hn⟩ := hr
  split at hn
  · exact detectOnCallNode_shape _ r hn
  · exact absurd hn (List.not_mem_nil r)

end Srv

/-- The fetch call `fetch("/x", {method: "trace"})`. -/
def fetchTraceProg : Program :=
  [.exprStmt (.call (.ident "fetch")
    [.strLit "/x", .objectLit [(some "method", .strLit "trace")]])]

/-- The axios call `axios.post("/login")`. -/
def axiosPostProg : Program :=
  [.exprStmt (.call (.member (.ident "axios") "post") [.strLit "/login"])]

/-- Claim C5 (counterexample): for `fetch("/x", {method: "trace"})` the
index.ts pipeline infers the method `"TRACE"`, which is not an element of
`{GET, POST, PUT, PATCH, DELETE, HEAD, OPTIONS}` — `inferMethod`
upper-cases whatever string the options object carries. -/
theorem claim5_fetch_method_outside_set :
    (Srv.detectNetworkCalls fetchTraceProg).map Srv.inferMethod =
      [Except.ok "TRACE"] ∧
    ("TRACE" : String) ∉ Srv.httpMethods := by
  exact ⟨rfl, by decide⟩

/-- Claim C5 (amended): for every detected call record, an `axios.*`
record infers an upper-cased method from the seven accepted property
names (hence an element of the claimed set), while a `fetch` record
infers `"GET"` when the options object carries no method and otherwise
the upper-casing of whatever non-empty string it carries, which need not
belong to the set. -/
theorem claim5_inferMethod_amended (p : Program) (r : Srv.CallRec)
    (hr : r ∈ Srv.detectNetworkCalls p) :
    (r.ctype = "axios" →
      ∃ m, Srv.inferMethod r = .ok m ∧ m ∈ Srv.httpMethods) ∧
    (r.ctype = "fetch" → Srv.methodProp r = none →
      Srv.inferMethod r = .ok "GET") ∧
    (∀ s : String, r.ctype = "fetch" →
      Srv.methodProp r = some (Srv.JVal.str s) → s ≠ "" →
      Srv.inferMethod r = .ok (jsToUpper s)) := by
  have hs := Srv.detectNetworkCalls_shape p r hr
  refine ⟨?_, ?_, ?_⟩
  · intro hax
    rcases hs with ⟨hf, -⟩ | ⟨-, m, hm, hmem⟩ | hx | hw
    · exact absurd (hax.symm.trans hf) (by decide)
    · have hne : m ≠ "" := by
        simp only [Srv.axiosMethods, List.mem_cons, List.not_mem_nil, or_false] at hmem
        rcases hmem with rfl | rfl | rfl | rfl | rfl | rfl | rfl <;> decide
      refine ⟨jsToUpper m, Srv.inferMethod_axios r m hax hm hne, ?_⟩
      simp only [Srv.axiosMethods, List.mem_cons, List.not_mem_nil, or_false] at hmem
      rcases hmem with rfl | rfl | rfl | rfl | rfl | rfl | rfl <;> decide
    · exact absurd (hax.symm.trans hx) (by decide)
    · exact absurd (hax.symm.trans hw) (by decide)
  · intro hf hmp
    unfold Srv.inferMethod
    rw [if_neg, if_pos hf, hmp]
    · rfl
    · rw [hf]
      rintro ⟨hc, -⟩
      exact absurd hc (by decide)
  · intro s hf hmp hsne
    unfold Srv.inferMethod
    rw [if_neg, if_pos hf, hmp]
    · simp [Srv.fetchOptionsMethod, hsne]
    · rw [hf]
      rintro ⟨hc, -⟩
      exact absurd hc (by decide)

/-- Witness for `claim5_inferMethod_amended` at `axios.post("/login")`. -/
theorem claim5_inferMethod_amended_witness :
    ∃ m, Srv.inferMethod
        { ctype := "axios", method := some "post",
          args := [Srv.ArgInfo.strA "/login"] } = .ok m ∧
      m ∈ Srv.httpMethods :=
  (claim5_inferMethod_amended axiosPostProg
    { ctype := "axios", method := some "post",
      args := [Srv.ArgInfo.strA "/login"] }
    (List.mem_singleton.mpr rfl)).1 rfl

/-- The constructor call `new WebSocket("wss://example.com")`. -/
def wsProg : Program :=
  [.exprStmt (.newE (.ident "WebSocket") [.strLit "wss://example.com"])]

/-- Claim C7 (code_bug evaluation): the index.ts WebSocket branch tests
`t.isNewExpression(node)` inside a visitor registered only for
`CallExpression`, so `new WebSocket(url)` produces no call record at all;
and `inferMethod` has no WebSocket case — a WebSocket-typed record would
fall through to `"GET"`, never the claimed literal `"WS"`. -/
theorem claim7_websocket_not_detected :
    Srv.detectNetworkCalls wsProg = [] ∧
    Srv.inferMethod
      { ctype := "WebSocket", args := [Srv.ArgInfo.strA "wss://example.com"] } =
      .ok "GET" ∧
    ("GET" : String) ≠ "WS" := by
  exact ⟨rfl, rfl, by decide⟩

/-!
## Acorn analyzer lemmas (claim C6)
-/

namespace AcornAnalyzer

/-- Every record `stepA` pushes that is typed `XMLHttpRequest` carries
`url = "N/A"` and `method = "N/A"`. -/
theorem stepA_networkCalls (a : AAnalysis) (e : Expr) :
    ∀ c ∈ (stepA a e).networkCalls,
      c ∈ a.networkCalls ∨
        (c.ctype = "XMLHttpRequest" → c.url = "N/A" ∧ c.method = "N/A") := by
  intro c hc
  cases e <;> simp only [stepA] at hc
  case call callee args =>
    unfold analyzeCallExpression at hc
    dsimp only at hc
    repeat' split at hc
    all_goals try simp only [List.mem_append, List.mem_singleton] at hc
    all_goals aesop
  case newE callee args =>
    unfold analyzeNewExpression at hc
    split at hc
    · simp only [List.mem_append, List.mem_singleton] at hc
      rcases hc with hc | hc
      · exact Or.inl hc
      · subst hc; exact Or.inr (fun _ => ⟨rfl, rfl⟩)
    · exact Or.inl hc
  case assign l r =>
    unfold analyzeAssignment at hc
    repeat' split at hc
    all_goals exact Or.inl hc
  all_goals exact Or.inl hc

/-- Fold form of `stepA_networkCalls`. -/
theorem foldA_networkCalls (es : List Expr) :
    ∀ a : AAnalysis,
      (∀ c ∈ a.networkCalls,
        c.ctype = "XMLHttpRequest" → c.url = "N/A" ∧ c.method = "N/A") →
      ∀ c ∈ (es.foldl stepA a).networkCalls,
        c.ctype = "XMLHttpRequest" → c.url = "N/A" ∧ c.method = "N/A" := by
  induction es with
  | nil => intro a h; exact h
  | cons e es ih =>
    intro a h
    refine ih (stepA a e) ?_
    intro c hc
    rcases stepA_networkCalls a e c hc with h1 | h1
    · exact h c h1
    · exact h1

end AcornAnalyzer

/-- Scenario E input: `new XMLHttpRequest()`. -/
def scenarioE : Program := [.exprStmt (.newE (.ident "XMLHttpRequest") [])]

/-- Claim C6 (confirmed): the acorn analyzer records exactly one finding
for `new XMLHttpRequest()` with `method = "N/A"` and `url = "N/A"`, and
in every program every `XMLHttpRequest` finding carries exactly those
`"N/A"` values — never a fabricated method or URL. -/
theorem claim6_xhr_na_finding :
    (AcornAnalyzer.acornAnalyze scenarioE).networkCalls =
      [{ ctype := "XMLHttpRequest", url := "N/A", method := "N/A" }] ∧
    (∀ (p : Program) (c : AcornAnalyzer.ACall),
      c ∈ (AcornAnalyzer.acornAnalyze p).networkCalls →
      c.ctype = "XMLHttpRequest" → c.url = "N/A" ∧ c.method = "N/A") := by
  refine ⟨rfl, ?_⟩
  intro p c hc hx
  exact AcornAnalyzer.foldA_networkCalls (AcornAnalyzer.programPostEvents p) {}
    (by simp [AcornAnalyzer.AAnalysis.networkCalls]) c hc hx

/-- Witness for `claim6_xhr_na_finding` inside a larger program (a fetch
call followed by the constructor). -/
theorem claim6_xhr_na_finding_witness :
    ({ ctype := "XMLHttpRequest", url := "N/A", method := "N/A" }
        : AcornAnalyzer.ACall).url = "N/A" ∧
    ({ ctype := "XMLHttpRequest", url := "N/A", method := "N/A" }
        : AcornAnalyzer.ACall).method = "N/A" :=
  claim6_xhr_na_finding.2
    [.exprStmt (.call (.ident "fetch") [.strLit "/a"]),
     .exprStmt (.newE (.ident "XMLHttpRequest") [])]
    { ctype := "XMLHttpRequest", url := "N/A", method := "N/A" }
    (by decide) rfl

/-- Witness for `claim2_riskLevel_amended` at Scenario A's endpoint. -/
theorem claim2_riskLevel_amended_witness :
    ({ method := "GET", url := "https://api.example.com/users",
       riskLevel := "MEDIUM" } : TaintAnalyzer.Endpoint).method = "GET" ∧
    (({ method := "GET", url := "https://api.example.com/users",
        riskLevel := "MEDIUM" } : TaintAnalyzer.Endpoint).riskLevel = "HIGH" ∨
     ({ method := "GET", url := "https://api.example.com/users",
        riskLevel := "MEDIUM" } : TaintAnalyzer.Endpoint).riskLevel = "MEDIUM") :=
  claim2_riskLevel_amended.2.1 scenarioA _ (by
    rw [claim2_riskLevel_amended.2.2]
    exact List.mem_singleton.mpr rfl)

end MCP
